import Mathlib

/-!
Verification of the buffered-send arena (bsend utility) of this repository.

The C source manages a user-supplied byte region as an in-band, address-ordered
free list of blocks plus an unordered active list of blocks whose payload is in
flight.  We embed the data model shallowly: byte addresses are naturals, a
block is a record of the header fields the code maintains, the two intrusive
doubly linked lists are Lean lists in traversal order from the head pointer,
and platform compile-time constants are packaged in a `Plat` record.  The
external collaborators (progress engine, send engine, packing facility) are
modelled as oracles in a `Ctx` record.  Machine arithmetic on sizes is `Nat`
(size_t values in the code stay far below the word size in all claims, and
truncated subtraction coincides with the code's arithmetic under the
well-formedness hypotheses carried by each theorem).
-/

namespace BsendSpec

/-- Platform compile-time constants:
`hdr` is `BSENDDATA_HEADER_TRUE_SIZE = sizeof(MPII_Bsend_data_t) - sizeof(double)`,
`ptrSz`/`dblSz` are `sizeof(void *)` and `sizeof(double)`,
`MAX_ALIGNMENT = 2 ^ maLog` (a power of two, as required by the code's bitmask
arithmetic), and `overhead` is the `MPI_BSEND_OVERHEAD` constant. -/
structure Plat where
  hdr : Nat
  ptrSz : Nat
  dblSz : Nat
  maLog : Nat
  overhead : Nat
deriving DecidableEq

/-- `align_sz = MPL_MAX(sizeof(void *), sizeof(double))` from `MPIR_Bsend_attach`. -/
def Plat.alignSz (P : Plat) : Nat := max P.ptrSz P.dblSz

/-- `MAX_ALIGNMENT` as a number. -/
def Plat.ma (P : Plat) : Nat := 2 ^ P.maLog

/-- `MIN_BUFFER_BLOCK` from the source: minimum payload a segment must hold. -/
def MIN_BUFFER_BLOCK : Nat := 8

/-- One `MPII_Bsend_data_t` record.  `addr` is the byte address of the block
header inside the user region; `size` is the stored payload-capacity field,
`total_size` the stored total-span field, `msgbuf` the stored payload pointer,
`count` the packed byte count `msg.count`, and `request` the send handle. -/
structure Block where
  addr : Nat
  total_size : Nat
  size : Nat
  msgbuf : Nat
  count : Nat
  request : Option Nat
deriving DecidableEq

/-- The `MPII_BsendBuffer` record.  `avail` is the free list read off from the
`avail` head pointer through `next` links; `active` likewise. -/
structure BsendBuffer where
  origbuffer : Option Nat
  origbuffer_size : Nat
  buffer : Option Nat
  buffer_size : Nat
  avail : List Block
  active : List Block
deriving DecidableEq

/-- A freshly `MPL_calloc`ed (all-zero) `MPII_BsendBuffer`. -/
def emptyBB : BsendBuffer :=
  { origbuffer := none, origbuffer_size := 0, buffer := none, buffer_size := 0
  , avail := [], active := [] }

/-- Error outcomes of the public entry points, in the boundary vocabulary. -/
inductive Err
  | bufferExists
  | bufferTooSmall
  | noBufferAttached
  | noBufferSpace
  | internalErr
deriving DecidableEq

/-- `MPIR_Bsend_attach`: lazily allocate the slot record, error checks
(`**bufexists`, `**bsendbufsmall`), forward-align the base pointer to
`align_sz`, shrinking the recorded `buffer_size` by the offset, then lay down
the single initial block.  Note the code initializes the first block from the
unmodified `buffer_size` parameter. -/
def MPIR_Bsend_attach (P : Plat) (slot : Option BsendBuffer)
    (buffer buffer_size : Nat) : Except Err BsendBuffer :=
  let bb := slot.getD emptyBB
  if bb.buffer.isSome then .error .bufferExists
  else if buffer_size < P.overhead then .error .bufferTooSmall
  else
    let offset := buffer % P.alignSz
    let buffer2 := if offset ≠ 0 then buffer + (P.alignSz - offset) else buffer
    let bsize2 := if offset ≠ 0 then buffer_size - (P.alignSz - offset) else buffer_size
    let p : Block :=
      { addr := buffer2
      , total_size := buffer_size
      , size := buffer_size - P.hdr
      , msgbuf := buffer2 + P.hdr
      , count := 0
      , request := none }
    .ok { origbuffer := some buffer, origbuffer_size := buffer_size
        , buffer := some buffer2, buffer_size := bsize2
        , avail := [p], active := [] }

/-- Result of `MPIR_Bsend_detach`: the slot afterwards, the `(ptr, size)` pair
written through the out parameters, and the list of send handles waited on, in
the order the code waits (head to tail of the active list). -/
structure DetachOut where
  slot : Option BsendBuffer
  retbuf : Option Nat
  retsize : Nat
  waited : List (Option Nat)
deriving DecidableEq

/-- `MPIR_Bsend_detach`: a null slot returns `(NULL, 0)`; otherwise wait on
every active block's request head-to-tail, return the original region, and
zero out all arena fields (the slot record itself stays allocated). -/
def MPIR_Bsend_detach (slot : Option BsendBuffer) : DetachOut :=
  match slot with
  | none => { slot := none, retbuf := none, retsize := 0, waited := [] }
  | some bb =>
      { slot := some { origbuffer := none, origbuffer_size := 0, buffer := none
                     , buffer_size := 0, avail := [], active := [] }
      , retbuf := bb.origbuffer
      , retsize := bb.origbuffer_size
      , waited := bb.active.map (fun b => b.request) }

/-- Unlink the (unique, in well-formed states) node with header address `a`
from an intrusive list. -/
def removeAddr (a : Nat) (l : List Block) : List Block :=
  l.filter (fun q => q.addr ≠ a)

/-- Splice node `n` in immediately after the node with header address `a`. -/
def insertAfterAddr (a : Nat) (n : Block) : List Block → List Block
  | [] => []
  | q :: rest => if q.addr = a then q :: n :: rest else q :: insertAfterAddr a n rest

/-- Update in place the fields of the node with header address `a`. -/
def setBlockAt (a : Nat) (f : Block → Block) (l : List Block) : List Block :=
  l.map fun q => if q.addr = a then f q else q

/-- `MPIR_Bsend_find_buffer`: first-fit walk of the free list. -/
def MPIR_Bsend_find_buffer (avail : List Block) (size : Nat) : Option Block :=
  avail.find? (fun p => size ≤ p.size)

/-- The alignment round-up at the top of `MPIR_Bsend_take_buffer`:
`if (alloc_size & (MAX_ALIGNMENT - 1)) alloc_size += MAX_ALIGNMENT - (...)`. -/
def alignUp (P : Plat) (n : Nat) : Nat :=
  if n &&& (P.ma - 1) ≠ 0 then n + (P.ma - (n &&& (P.ma - 1))) else n

/-- `MPIR_Bsend_take_buffer`: round the request up to `MAX_ALIGNMENT`; if the
block's payload can hold the request plus a further header and
`MIN_BUFFER_BLOCK`, carve a new free block `newp` at
`p + BSENDDATA_HEADER_TRUE_SIZE + alloc_size`, splice it in after `p`, and
shrink `p` to end at `newp`.  In all cases unlink `p` from the free list and
push it on the head of the active list. -/
def MPIR_Bsend_take_buffer (P : Plat) (bb : BsendBuffer) (p : Block)
    (size : Nat) : BsendBuffer :=
  let alloc := alignUp P size
  if alloc + P.hdr + MIN_BUFFER_BLOCK ≤ p.size then
    let newAddr := p.addr + P.hdr + alloc
    let newp : Block :=
      { addr := newAddr
      , total_size := p.total_size - alloc - P.hdr
      , size := p.total_size - alloc - P.hdr - P.hdr
      , msgbuf := newAddr + P.hdr
      , count := 0
      , request := none }
    let p2 : Block :=
      { p with total_size := newAddr - p.addr, size := newAddr - p.addr - P.hdr }
    { bb with avail := removeAddr p.addr (insertAfterAddr p.addr newp bb.avail)
            , active := p2 :: bb.active }
  else
    { bb with avail := removeAddr p.addr bb.avail
            , active := p :: bb.active }

/-- The free-list half of `MPIR_Bsend_free_segment`: walk `avail` for the
straddling pair (`avail_prev`, `avail`), merge `p` with the right neighbor
when it is byte-adjacent, then merge the combined block into the left neighbor
when that is byte-adjacent, else splice in between. -/
def MPIR_Bsend_free_merge (P : Plat) (p : Block) (avail : List Block) :
    List Block :=
  let before := avail.takeWhile (fun q => q.addr ≤ p.addr)
  let after := avail.dropWhile (fun q => q.addr ≤ p.addr)
  let pr : Block × List Block :=
    match after with
    | [] => (p, [])
    | r :: rest =>
        if p.addr + p.total_size = r.addr then
          ({ p with total_size := p.total_size + r.total_size
                  , size := p.total_size + r.total_size - P.hdr }, rest)
        else (p, r :: rest)
  match before.getLast? with
  | none => pr.1 :: pr.2
  | some L =>
      if L.addr + L.total_size = pr.1.addr then
        before.dropLast ++
          ({ L with total_size := L.total_size + pr.1.total_size
                  , size := L.total_size + pr.1.total_size - P.hdr } :: pr.2)
      else before ++ (pr.1 :: pr.2)

/-- `MPIR_Bsend_free_segment`: unlink `p` from the active list and merge it
into the free list. -/
def MPIR_Bsend_free_segment (P : Plat) (bb : BsendBuffer) (p : Block) :
    BsendBuffer :=
  { bb with active := removeAddr p.addr bb.active
          , avail := MPIR_Bsend_free_merge P p bb.avail }

/-- `MPIR_Request_is_complete(p->request)` under the completion oracle; an
absent handle is treated as incomplete. -/
def completeOf (complete : Nat → Bool) (b : Block) : Bool :=
  match b.request with
  | some r => complete r
  | none => false

/-- `MPIR_Bsend_progress`: walk the active list (capturing `next` before each
free) and feed every completed block to `MPIR_Bsend_free_segment`. -/
def MPIR_Bsend_progress (P : Plat) (complete : Nat → Bool)
    (bb : BsendBuffer) : BsendBuffer :=
  bb.active.foldl
    (fun s b => if completeOf complete b then MPIR_Bsend_free_segment P s b else s)
    bb

/-- `MPIR_Bsend_check_active`: when the active list is non-empty, poke the
progress engine once and reclaim completed blocks. -/
def MPIR_Bsend_check_active (P : Plat) (complete : Nat → Bool)
    (bb : BsendBuffer) : BsendBuffer :=
  if bb.active.isEmpty then bb else MPIR_Bsend_progress P complete bb

/-- Oracles for one `MPIR_Bsend_isend` call: the completion state the progress
engine reports, whether `MPIR_Typerep_pack` fails, whether `MPID_Isend`
returns an error, and the request handle `MPID_Isend` stores on success
(`none` models a null stored request). -/
structure Ctx where
  complete : Nat → Bool
  packErr : Bool
  engineErr : Bool
  engineReq : Option Nat

/-- Observable events of one `MPIR_Bsend_isend` call: each
`MPIR_Bsend_check_active` call and each `MPIR_Bsend_find_buffer` attempt. -/
inductive Ev
  | reclaim
  | find
deriving DecidableEq

/-- Result of `MPIR_Bsend_isend`: error outcome, the arena afterwards, the
outward request handle made visible to the caller, and the event trace. -/
structure IsendOut where
  err : Option Err
  bb : BsendBuffer
  outreq : Option Nat
  trace : List Ev
deriving DecidableEq

/-- The found-a-segment path of `MPIR_Bsend_isend`: zero `msg.count`, pack
(adding `packsize` to the count), call `MPID_Isend` storing the engine's
request in the block, and only when that stored request is non-null take the
buffer and surface the handle to the caller if one was asked for. -/
def isendFound (P : Plat) (ctx : Ctx) (bb : BsendBuffer) (p : Block)
    (packsize : Nat) (wantReq : Bool) (tr : List Ev) : IsendOut :=
  let bb1 := { bb with avail := setBlockAt p.addr (fun q => { q with count := 0 }) bb.avail }
  if ctx.packErr then { err := some .internalErr, bb := bb1, outreq := none, trace := tr }
  else
    let bb2 := { bb1 with
      avail := setBlockAt p.addr (fun q => { q with count := q.count + packsize }) bb1.avail }
    if ctx.engineErr then { err := some .internalErr, bb := bb2, outreq := none, trace := tr }
    else
      let bb3 := { bb2 with
        avail := setBlockAt p.addr (fun q => { q with request := ctx.engineReq }) bb2.avail }
      match ctx.engineReq with
      | none => { err := none, bb := bb3, outreq := none, trace := tr }
      | some r =>
          let p3 : Block := { p with count := 0 + packsize, request := some r }
          { err := none
          , bb := MPIR_Bsend_take_buffer P bb3 p3 (0 + packsize)
          , outreq := if wantReq then some r else none
          , trace := tr }

/-- `MPIR_Bsend_isend` on a resolved arena: an initial
`MPIR_Bsend_check_active`, then the two-pass loop — find, and on failure of
pass 0 one more `MPIR_Bsend_check_active` and one more find; a second failure
is `NO_BUFFER_SPACE`. -/
def MPIR_Bsend_isend (P : Plat) (ctx : Ctx) (bb : BsendBuffer)
    (packsize : Nat) (wantReq : Bool) : IsendOut :=
  let bb1 := MPIR_Bsend_check_active P ctx.complete bb
  match MPIR_Bsend_find_buffer bb1.avail packsize with
  | some p => isendFound P ctx bb1 p packsize wantReq [.reclaim, .find]
  | none =>
      let bb2 := MPIR_Bsend_check_active P ctx.complete bb1
      match MPIR_Bsend_find_buffer bb2.avail packsize with
      | some p => isendFound P ctx bb2 p packsize wantReq [.reclaim, .find, .reclaim, .find]
      | none =>
          { err := some .noBufferSpace, bb := bb2, outreq := none
          , trace := [.reclaim, .find, .reclaim, .find] }

/-- The three arena slots visible to one send: the communicator's slot, the
communicator's owning session (absent when `comm_ptr->session_ptr` is null)
with its slot, and the process-wide slot. -/
structure World where
  commBuf : Option BsendBuffer
  sessionPtr : Option (Option BsendBuffer)
  processBuf : Option BsendBuffer
deriving DecidableEq

/-- Which slot a send resolved to. -/
inductive SlotId
  | comm
  | session
  | process
deriving DecidableEq

/-- The slot-resolution cascade at the top of `MPIR_Bsend_isend`:
`comm_ptr->bsendbuffer`, else `comm_ptr->session_ptr->bsendbuffer`, else
`MPIR_Process.bsendbuffer`. -/
def resolveBuf (w : World) : Option (SlotId × BsendBuffer) :=
  match w.commBuf with
  | some bb => some (.comm, bb)
  | none =>
      match w.sessionPtr with
      | some (some bb) => some (.session, bb)
      | _ => w.processBuf.map (fun bb => (.process, bb))

/-- Write an arena back into the slot it was resolved from. -/
def setSlot (w : World) (s : SlotId) (bb : BsendBuffer) : World :=
  match s with
  | .comm => { w with commBuf := some bb }
  | .session => { w with sessionPtr := some (some bb) }
  | .process => { w with processBuf := some bb }

/-- Result of a send including slot resolution. -/
structure IsendTopOut where
  err : Option Err
  w : World
  outreq : Option Nat
deriving DecidableEq

/-- `MPIR_Bsend_isend` including the resolution cascade and the
`MPIR_ERR_CHKANDJUMP2(!bsendbuffer, ...)` check. -/
def isendTop (P : Plat) (ctx : Ctx) (w : World) (packsize : Nat)
    (wantReq : Bool) : IsendTopOut :=
  match resolveBuf w with
  | none => { err := some .noBufferAttached, w := w, outreq := none }
  | some (s, bb) =>
      let o := MPIR_Bsend_isend P ctx bb packsize wantReq
      { err := o.err, w := setSlot w s o.bb, outreq := o.outreq }

/-- Structural projection of a block: header address, total span, payload
capacity — the data the spec calls block membership, order and span. -/
def proj (b : Block) : Nat × Nat × Nat := (b.addr, b.total_size, b.size)

/-- Separation relation of the free list: a block ends strictly before the
next begins (address order, disjointness, and no byte-adjacency). -/
def sep (a b : Block) : Prop := a.addr + a.total_size < b.addr

/-- Free-list invariant: consecutive blocks are separated. -/
def FreeChain (l : List Block) : Prop := l.Chain' sep

/-- `p` overlaps no block of `l`. -/
def DisjointFrom (p : Block) (l : List Block) : Prop :=
  ∀ q ∈ l, q.addr + q.total_size ≤ p.addr ∨ p.addr + p.total_size ≤ q.addr

/-- All blocks of `l` have positive span. -/
def PosSpans (l : List Block) : Prop := ∀ q ∈ l, 0 < q.total_size

/-- Stored payload capacity agrees with span minus header size. -/
def sizeInv (P : Plat) (b : Block) : Prop := b.size = b.total_size - P.hdr

/-- `sizeInv` for every block of a list. -/
def sizeInvAll (P : Plat) (l : List Block) : Prop := ∀ q ∈ l, sizeInv P q

/-- A concrete LP64 platform: 64-byte true header size, 8-byte pointers and
doubles, `MAX_ALIGNMENT = 16`, `MPI_BSEND_OVERHEAD = 96`. -/
def P64 : Plat := { hdr := 64, ptrSz := 8, dblSz := 8, maLog := 4, overhead := 96 }

/-! ## Helper lemmas -/

/-- A successful attach records the caller's original region verbatim. -/
theorem attach_ok_orig (P : Plat) (slot : Option BsendBuffer) (buf n : Nat)
    (bb : BsendBuffer) (h : MPIR_Bsend_attach P slot buf n = .ok bb) :
    bb.origbuffer = some buf ∧ bb.origbuffer_size = n ∧ bb.active = [] := by
  simp only [MPIR_Bsend_attach] at h
  split at h
  · exact absurd h (by simp)
  · split at h
    · exact absurd h (by simp)
    · simp only [Except.ok.injEq] at h
      subst h
      exact ⟨rfl, rfl, rfl⟩

/-- `setBlockAt` with a projection-preserving update leaves the structural
projection of the list unchanged. -/
theorem proj_setBlockAt (a : Nat) (f : Block → Block) (l : List Block)
    (hf : ∀ q, proj (f q) = proj q) :
    (setBlockAt a f l).map proj = l.map proj := by
  induction l with
  | nil => rfl
  | cons q t ih =>
      simp only [setBlockAt, List.map_cons, List.map_map] at ih ⊢
      refine congrArg₂ _ ?_ ih
      split
      · exact hf q
      · rfl

/-- With no completed request on the active list, `MPIR_Bsend_progress` is the
identity. -/
theorem progress_no_complete (P : Plat) (c : Nat → Bool) (bb : BsendBuffer)
    (hnc : ∀ b ∈ bb.active, completeOf c b = false) :
    MPIR_Bsend_progress P c bb = bb := by
  unfold MPIR_Bsend_progress
  have main : ∀ (l : List Block) (s : BsendBuffer), (∀ b ∈ l, completeOf c b = false) →
      l.foldl (fun s b => if completeOf c b then MPIR_Bsend_free_segment P s b else s) s = s := by
    intro l
    induction l with
    | nil => intro s _; rfl
    | cons x t ih =>
        intro s h
        have hx : completeOf c x = false := h x (by simp)
        simp only [List.foldl_cons, hx, Bool.false_eq_true, if_false]
        exact ih s (fun b hb => h b (by simp [hb]))
  exact main bb.active bb hnc

/-- With no completed request on the active list, `MPIR_Bsend_check_active` is
the identity. -/
theorem check_active_no_complete (P : Plat) (c : Nat → Bool) (bb : BsendBuffer)
    (hnc : ∀ b ∈ bb.active, completeOf c b = false) :
    MPIR_Bsend_check_active P c bb = bb := by
  unfold MPIR_Bsend_check_active
  split
  · rfl
  · exact progress_no_complete P c bb hnc

/-- The requested size rounded up by `MPIR_Bsend_take_buffer`:
`n ≤ alignUp P n` and `MAX_ALIGNMENT` divides the result. -/
theorem ma_dvd_alignUp (P : Plat) (n : Nat) : P.ma ∣ alignUp P n := by
  unfold alignUp
  have hma : P.ma = 2 ^ P.maLog := rfl
  rw [hma, Nat.and_pow_two_sub_one_eq_mod]
  have hpos : 0 < 2 ^ P.maLog := Nat.pos_pow_of_pos _ (by norm_num)
  have hdm := Nat.div_add_mod n (2 ^ P.maLog)
  have hlt : n % 2 ^ P.maLog < 2 ^ P.maLog := Nat.mod_lt _ hpos
  split
  · refine ⟨n / 2 ^ P.maLog + 1, ?_⟩
    rw [Nat.mul_succ]
    omega
  · next h =>
      simp only [ne_eq, Decidable.not_not] at h
      exact Nat.dvd_of_mod_eq_zero h

/-! ## C1 -/

/-- C1: for a successful attach of a misaligned region the claim says the
single free block's `total_span` equals the forward-aligned (reduced) size.
The code instead initializes the block from the unreduced `buffer_size`
parameter: attaching `(ptr = 4, size = 1000)` on the LP64 platform yields an
aligned base 8 with reduced size 996, but the single free block spans 1000
bytes (4 bytes past the end of the user region).  This theorem evaluates the
code at that failing input. -/
theorem C1_attach_misaligned_span_bug :
    (MPIR_Bsend_attach P64 none 4 1000).toOption.map
        (fun bb => (bb.buffer, bb.buffer_size, bb.active, bb.avail.map proj))
      = some (some 8, 996, [], [(8, 1000, 936)])
    ∧ (996 : Nat) ≠ 1000 := by
  exact ⟨rfl, by decide⟩

/-! ## C6 -/

/-- C6: detach waits on the handle of every active block head-to-tail, empties
the slot's state (the record stays allocated), and returns the caller's
original `(ptr, size)`; detach of an empty slot returns `(NULL, 0)`.  Composed
with a successful attach it returns exactly the attached `(ptr, size)`. -/
theorem C6_detach_roundtrip (P : Plat) (slot : Option BsendBuffer) (buf n : Nat)
    (bb : BsendBuffer) (h : MPIR_Bsend_attach P slot buf n = .ok bb) :
    (∀ bb2 : BsendBuffer, MPIR_Bsend_detach (some bb2) =
        { slot := some { origbuffer := none, origbuffer_size := 0, buffer := none
                       , buffer_size := 0, avail := [], active := [] }
        , retbuf := bb2.origbuffer
        , retsize := bb2.origbuffer_size
        , waited := bb2.active.map (fun b => b.request) })
    ∧ MPIR_Bsend_detach none = { slot := none, retbuf := none, retsize := 0, waited := [] }
    ∧ (MPIR_Bsend_detach (some bb)).retbuf = some buf
    ∧ (MPIR_Bsend_detach (some bb)).retsize = n
    ∧ (MPIR_Bsend_detach (some bb)).waited = [] := by
  obtain ⟨h1, h2, h3⟩ := attach_ok_orig P slot buf n bb h
  refine ⟨fun bb2 => rfl, rfl, ?_, ?_, ?_⟩
  · simpa [MPIR_Bsend_detach] using h1
  · simpa [MPIR_Bsend_detach] using h2
  · simp [MPIR_Bsend_detach, h3]

/-- The arena produced by attaching `(4, 1000)` on the LP64 platform. -/
def bbAtt : BsendBuffer :=
  { origbuffer := some 4, origbuffer_size := 1000, buffer := some 8, buffer_size := 996
  , avail := [{ addr := 8, total_size := 1000, size := 936, msgbuf := 72, count := 0
              , request := none }]
  , active := [] }

/-- Witness for C6 at a concrete input. -/
theorem C6_detach_roundtrip_witness :
    (MPIR_Bsend_detach (some bbAtt)).retbuf = some 4 := by
  exact (C6_detach_roundtrip P64 none 4 1000 bbAtt (by rfl)).2.2.1

/-! ## C9 -/

/-- C9: the already-attached check tests only whether the slot currently holds
a usable region (`bsendbuffer->buffer`), and detach clears that region while
keeping the slot record allocated, so attach–detach–attach never fails with
`BUFFER_ALREADY_ATTACHED`: after a successful attach and a detach, a second
attach of any region of admissible size succeeds. -/
theorem C9_attach_detach_attach (P : Plat) (slot : Option BsendBuffer)
    (b1 n1 b2 n2 : Nat) (bb1 : BsendBuffer)
    (h1 : MPIR_Bsend_attach P slot b1 n1 = .ok bb1)
    (h2 : P.overhead ≤ n2) :
    ∃ bb2, MPIR_Bsend_attach P (MPIR_Bsend_detach (some bb1)).slot b2 n2 = .ok bb2 := by
  have hslot : (MPIR_Bsend_detach (some bb1)).slot =
      some { origbuffer := none, origbuffer_size := 0, buffer := none
           , buffer_size := 0, avail := [], active := [] } := rfl
  rw [hslot]
  simp only [MPIR_Bsend_attach, Option.getD_some, Option.isSome_none, Bool.false_eq_true,
    if_false, if_neg (Nat.not_lt.mpr h2)]
  exact ⟨_, rfl⟩

/-- Witness for C9 at a concrete input. -/
theorem C9_attach_detach_attach_witness :
    ∃ bb2, MPIR_Bsend_attach P64 (MPIR_Bsend_detach (some bbAtt)).slot 200 500 = .ok bb2 := by
  exact C9_attach_detach_attach P64 none 4 1000 200 500 bbAtt (by rfl) (by decide)

/-- The found-a-segment path only ever reports success or an internal error. -/
theorem isendFound_err (P : Plat) (ctx : Ctx) (bb : BsendBuffer) (p : Block)
    (packsize : Nat) (wantReq : Bool) (tr : List Ev) :
    (isendFound P ctx bb p packsize wantReq tr).err = none ∨
    (isendFound P ctx bb p packsize wantReq tr).err = some .internalErr := by
  unfold isendFound
  split
  · exact Or.inr rfl
  · split
    · exact Or.inr rfl
    · split
      · exact Or.inl rfl
      · exact Or.inl rfl

/-- The found-a-segment path returns the trace it was handed. -/
theorem isendFound_trace (P : Plat) (ctx : Ctx) (bb : BsendBuffer) (p : Block)
    (packsize : Nat) (wantReq : Bool) (tr : List Ev) :
    (isendFound P ctx bb p packsize wantReq tr).trace = tr := by
  unfold isendFound
  split
  · rfl
  · split
    · rfl
    · split
      · rfl
      · rfl

/-- `MPIR_Bsend_isend` on a resolved arena never reports
`NO_BUFFER_ATTACHED`. -/
theorem isend_err_ne_noBufferAttached (P : Plat) (ctx : Ctx) (bb : BsendBuffer)
    (packsize : Nat) (wantReq : Bool) :
    (MPIR_Bsend_isend P ctx bb packsize wantReq).err ≠ some .noBufferAttached := by
  simp only [MPIR_Bsend_isend]
  split
  · next p _ =>
      rcases isendFound_err P ctx (MPIR_Bsend_check_active P ctx.complete bb) p packsize wantReq
        [.reclaim, .find] with h | h <;> simp [h]
  · split
    · next p _ =>
        rcases isendFound_err P ctx
          (MPIR_Bsend_check_active P ctx.complete (MPIR_Bsend_check_active P ctx.complete bb))
          p packsize wantReq [.reclaim, .find, .reclaim, .find] with h | h <;> simp [h]
    · simp

/-! ## C8 -/

/-- C8: the arena for a send is resolved in the precedence order communicator
slot, then the communicator's owning session's slot, then the process slot;
`NO_BUFFER_ATTACHED` is returned exactly when all three are null; and a send
drawn from a higher-precedence slot writes back only that slot, leaving the
lower-precedence slots (hence their free lists) unchanged. -/
theorem C8_slot_resolution (P : Plat) (ctx : Ctx) (w : World) (packsize : Nat)
    (wantReq : Bool) :
    ((isendTop P ctx w packsize wantReq).err = some Err.noBufferAttached ↔
      w.commBuf = none ∧ (w.sessionPtr = none ∨ w.sessionPtr = some none)
        ∧ w.processBuf = none)
    ∧ (∀ bb, w.commBuf = some bb →
        isendTop P ctx w packsize wantReq =
          { err := (MPIR_Bsend_isend P ctx bb packsize wantReq).err
          , w := { w with commBuf := some (MPIR_Bsend_isend P ctx bb packsize wantReq).bb }
          , outreq := (MPIR_Bsend_isend P ctx bb packsize wantReq).outreq })
    ∧ (∀ bb, w.commBuf = none → w.sessionPtr = some (some bb) →
        isendTop P ctx w packsize wantReq =
          { err := (MPIR_Bsend_isend P ctx bb packsize wantReq).err
          , w := { w with sessionPtr := some (some (MPIR_Bsend_isend P ctx bb packsize wantReq).bb) }
          , outreq := (MPIR_Bsend_isend P ctx bb packsize wantReq).outreq })
    ∧ (∀ bb, w.commBuf = none → (w.sessionPtr = none ∨ w.sessionPtr = some none) →
        w.processBuf = some bb →
        isendTop P ctx w packsize wantReq =
          { err := (MPIR_Bsend_isend P ctx bb packsize wantReq).err
          , w := { w with processBuf := some (MPIR_Bsend_isend P ctx bb packsize wantReq).bb }
          , outreq := (MPIR_Bsend_isend P ctx bb packsize wantReq).outreq }) := by
  refine ⟨?_, ?_, ?_, ?_⟩
  · constructor
    · intro herr
      rcases hc : w.commBuf with _ | bb
      · rcases hs : w.sessionPtr with _ | s
        · rcases hp : w.processBuf with _ | bb
          · exact ⟨rfl, Or.inl rfl, rfl⟩
          · rw [isendTop, resolveBuf, hc, hs, hp] at herr
            exact absurd herr (isend_err_ne_noBufferAttached P ctx bb packsize wantReq)
        · rcases s with _ | bb
          · rcases hp : w.processBuf with _ | bb
            · exact ⟨rfl, Or.inr rfl, rfl⟩
            · rw [isendTop, resolveBuf, hc, hs, hp] at herr
              exact absurd herr (isend_err_ne_noBufferAttached P ctx bb packsize wantReq)
          · rw [isendTop, resolveBuf, hc, hs] at herr
            exact absurd herr (isend_err_ne_noBufferAttached P ctx bb packsize wantReq)
      · rw [isendTop, resolveBuf, hc] at herr
        exact absurd herr (isend_err_ne_noBufferAttached P ctx bb packsize wantReq)
    · rintro ⟨hc, hs, hp⟩
      rcases hs with hs | hs
      · rw [isendTop, resolveBuf, hc, hs, hp]
        rfl
      · rw [isendTop, resolveBuf, hc, hs, hp]
        rfl
  · intro bb hc
    simp [isendTop, resolveBuf, setSlot, hc]
  · intro bb hc hs
    simp [isendTop, resolveBuf, setSlot, hc, hs]
  · intro bb hc hs hp
    rcases hs with hs | hs
    · simp [isendTop, resolveBuf, setSlot, hc, hs, hp]
    · simp [isendTop, resolveBuf, setSlot, hc, hs, hp]

/-- Witness for C8 at a concrete input: all slots null yields
`NO_BUFFER_ATTACHED`. -/
theorem C8_slot_resolution_witness :
    (isendTop P64 { complete := fun _ => false, packErr := false, engineErr := false
                  , engineReq := none }
        { commBuf := none, sessionPtr := none, processBuf := none } 10 true).err
      = some Err.noBufferAttached := by
  exact (C8_slot_resolution P64
    { complete := fun _ => false, packErr := false, engineErr := false, engineReq := none }
    { commBuf := none, sessionPtr := none, processBuf := none } 10 true).1.mpr
    ⟨rfl, Or.inl rfl, rfl⟩

/-! ## C10 -/

/-- C10: when the send engine stores no handle (a null request) while
reporting no error, the chosen block is not taken: the free and active lists
are structurally unchanged from the state in which the block was found (the
block stays on the free list), no outward request is produced, and the call
returns success. -/
theorem C10_null_request_not_taken (P : Plat) (ctx : Ctx) (bb : BsendBuffer)
    (packsize : Nat) (wantReq : Bool) (p : Block)
    (hp : ctx.packErr = false) (he : ctx.engineErr = false) (hr : ctx.engineReq = none)
    (hfind : MPIR_Bsend_find_buffer (MPIR_Bsend_check_active P ctx.complete bb).avail packsize
      = some p) :
    (MPIR_Bsend_isend P ctx bb packsize wantReq).err = none
    ∧ (MPIR_Bsend_isend P ctx bb packsize wantReq).outreq = none
    ∧ (MPIR_Bsend_isend P ctx bb packsize wantReq).bb.avail.map proj
        = (MPIR_Bsend_check_active P ctx.complete bb).avail.map proj
    ∧ (MPIR_Bsend_isend P ctx bb packsize wantReq).bb.active
        = (MPIR_Bsend_check_active P ctx.complete bb).active
    ∧ p.addr ∈ (MPIR_Bsend_isend P ctx bb packsize wantReq).bb.avail.map (fun b => b.addr) := by
  have hred : MPIR_Bsend_isend P ctx bb packsize wantReq =
      isendFound P ctx (MPIR_Bsend_check_active P ctx.complete bb) p packsize wantReq
        [.reclaim, .find] := by
    simp only [MPIR_Bsend_isend, hfind]
  have hfound : isendFound P ctx (MPIR_Bsend_check_active P ctx.complete bb) p packsize wantReq
      [.reclaim, .find] =
      { err := none
      , bb := { MPIR_Bsend_check_active P ctx.complete bb with
                avail := setBlockAt p.addr (fun q => { q with request := ctx.engineReq })
                  (setBlockAt p.addr (fun q => { q with count := q.count + packsize })
                    (setBlockAt p.addr (fun q => { q with count := 0 })
                      (MPIR_Bsend_check_active P ctx.complete bb).avail)) }
      , outreq := none
      , trace := [.reclaim, .find] } := by
    unfold isendFound
    rw [hp, he, hr]
    rfl
  rw [hred, hfound]
  have hproj : (setBlockAt p.addr (fun q => { q with request := ctx.engineReq })
      (setBlockAt p.addr (fun q => { q with count := q.count + packsize })
        (setBlockAt p.addr (fun q => { q with count := 0 })
          (MPIR_Bsend_check_active P ctx.complete bb).avail))).map proj
      = (MPIR_Bsend_check_active P ctx.complete bb).avail.map proj := by
    rw [proj_setBlockAt p.addr (fun q => { q with request := ctx.engineReq }) _ (fun q => rfl),
      proj_setBlockAt p.addr (fun q => { q with count := q.count + packsize }) _ (fun q => rfl),
      proj_setBlockAt p.addr (fun q => { q with count := 0 }) _ (fun q => rfl)]
  refine ⟨rfl, rfl, hproj, rfl, ?_⟩
  have hmem : p ∈ (MPIR_Bsend_check_active P ctx.complete bb).avail :=
    List.mem_of_find?_eq_some hfind
  have haddr : ∀ l : List Block, l.map (fun b => b.addr) = (l.map proj).map Prod.fst := by
    intro l
    rw [List.map_map]
    rfl
  rw [haddr, hproj, ← haddr]
  exact List.mem_map_of_mem (fun b => b.addr) hmem

/-- Witness for C10 at a concrete input. -/
theorem C10_null_request_not_taken_witness :
    (MPIR_Bsend_isend P64
      { complete := fun _ => false, packErr := false, engineErr := false, engineReq := none }
      bbAtt 100 true).err = none := by
  exact (C10_null_request_not_taken P64
    { complete := fun _ => false, packErr := false, engineErr := false, engineReq := none }
    bbAtt 100 true
    { addr := 8, total_size := 1000, size := 936, msgbuf := 72, count := 0, request := none }
    rfl rfl rfl (by rfl)).1

/-- When the found-a-segment path fails, the only state change is scribbling
on the found block's packed-byte count: free-list structure (addresses, spans,
capacities, order) and the active list are untouched. -/
theorem isendFound_err_state (P : Plat) (ctx : Ctx) (bb : BsendBuffer) (p : Block)
    (packsize : Nat) (wantReq : Bool) (tr : List Ev) (e : Err)
    (herr : (isendFound P ctx bb p packsize wantReq tr).err = some e) :
    (isendFound P ctx bb p packsize wantReq tr).bb.avail.map proj = bb.avail.map proj
    ∧ (isendFound P ctx bb p packsize wantReq tr).bb.active = bb.active := by
  by_cases hp : ctx.packErr = true
  · have hred : isendFound P ctx bb p packsize wantReq tr =
        { err := some .internalErr
        , bb := { bb with avail := setBlockAt p.addr (fun q => { q with count := 0 }) bb.avail }
        , outreq := none, trace := tr } := by
      simp only [isendFound, hp, if_true]
    rw [hred]
    exact ⟨proj_setBlockAt p.addr (fun q => { q with count := 0 }) _ (fun q => rfl), rfl⟩
  · by_cases he : ctx.engineErr = true
    · have hred : isendFound P ctx bb p packsize wantReq tr =
          { err := some .internalErr
          , bb := { bb with
                    avail := setBlockAt p.addr (fun q => { q with count := q.count + packsize })
                      (setBlockAt p.addr (fun q => { q with count := 0 }) bb.avail) }
          , outreq := none, trace := tr } := by
        simp only [isendFound, hp, he, if_true, if_false, Bool.false_eq_true]
      rw [hred]
      refine ⟨?_, rfl⟩
      rw [proj_setBlockAt p.addr (fun q => { q with count := q.count + packsize }) _ (fun q => rfl),
        proj_setBlockAt p.addr (fun q => { q with count := 0 }) _ (fun q => rfl)]
    · exfalso
      cases hr : ctx.engineReq with
      | none =>
          have : (isendFound P ctx bb p packsize wantReq tr).err = none := by
            simp only [isendFound, hp, he, hr, Bool.false_eq_true, if_false]
          rw [this] at herr
          exact Option.noConfusion herr
      | some r =>
          have : (isendFound P ctx bb p packsize wantReq tr).err = none := by
            simp only [isendFound, hp, he, hr, Bool.false_eq_true, if_false]
          rw [this] at herr
          exact Option.noConfusion herr

/-! ## C2 -/

/-- C2 (amended): provided no request on the active list has completed at
entry (so the progress polls inside the call reclaim nothing), every erroring
`MPIR_Bsend_isend` leaves the free and active lists with the same blocks —
same addresses, spans, payload capacities, order and heads — as before the
call.  (Without that proviso the claim fails: see the counterexample, where an
erroring send still migrates a completed active block to the free list.) -/
theorem C2_error_preserves_lists (P : Plat) (ctx : Ctx) (bb : BsendBuffer)
    (packsize : Nat) (wantReq : Bool) (e : Err)
    (hnc : ∀ b ∈ bb.active, completeOf ctx.complete b = false)
    (herr : (MPIR_Bsend_isend P ctx bb packsize wantReq).err = some e) :
    (MPIR_Bsend_isend P ctx bb packsize wantReq).bb.avail.map proj = bb.avail.map proj
    ∧ (MPIR_Bsend_isend P ctx bb packsize wantReq).bb.active = bb.active := by
  have hca : MPIR_Bsend_check_active P ctx.complete bb = bb :=
    check_active_no_complete P ctx.complete bb hnc
  cases hf : MPIR_Bsend_find_buffer bb.avail packsize with
  | some p =>
      have hred : MPIR_Bsend_isend P ctx bb packsize wantReq
          = isendFound P ctx bb p packsize wantReq [.reclaim, .find] := by
        simp only [MPIR_Bsend_isend, hca, hf]
      rw [hred] at herr ⊢
      exact isendFound_err_state P ctx bb p packsize wantReq [.reclaim, .find] e herr
  | none =>
      have hred : MPIR_Bsend_isend P ctx bb packsize wantReq
          = { err := some .noBufferSpace, bb := bb, outreq := none
            , trace := [.reclaim, .find, .reclaim, .find] } := by
        simp only [MPIR_Bsend_isend, hca, hf]
      rw [hred]
      exact ⟨rfl, rfl⟩

/-- A state with one already-completed active block and an overlarge request:
the counterexample input for C2 as originally stated. -/
def bbC2 : BsendBuffer :=
  { origbuffer := some 1000, origbuffer_size := 100, buffer := some 1000, buffer_size := 100
  , avail := []
  , active := [{ addr := 1000, total_size := 100, size := 36, msgbuf := 1064, count := 0
               , request := some 1 }] }

/-- Oracles for the C2 counterexample: request 1 is complete. -/
def ctxC2 : Ctx :=
  { complete := fun _ => true, packErr := false, engineErr := false, engineReq := some 5 }

/-- C2 as frozen is false of the code: an erroring send is not guaranteed to
leave the lists identical.  Here a send that fails with `NO_BUFFER_SPACE`
still reclaims a completed active block into the free list, changing both
lists. -/
theorem C2_counterexample :
    (MPIR_Bsend_isend P64 ctxC2 bbC2 1000000 true).err = some Err.noBufferSpace
    ∧ ¬ ((MPIR_Bsend_isend P64 ctxC2 bbC2 1000000 true).bb.avail = bbC2.avail)
    ∧ ¬ ((MPIR_Bsend_isend P64 ctxC2 bbC2 1000000 true).bb.active = bbC2.active) := by
  exact ⟨rfl, by decide, by decide⟩

/-- Oracles with nothing complete and a well-behaved engine. -/
def ctxNone : Ctx :=
  { complete := fun _ => false, packErr := false, engineErr := false, engineReq := none }

/-- A fresh small arena with an empty free list is impossible; for the C2
witness we use an arena whose lists are empty, so any send errs with
`NO_BUFFER_SPACE` and the lists are trivially preserved. -/
def bbEmptyLists : BsendBuffer :=
  { origbuffer := some 0, origbuffer_size := 100, buffer := some 0, buffer_size := 100
  , avail := [], active := [] }

/-- Witness for C2 at a concrete input. -/
theorem C2_error_preserves_lists_witness :
    (MPIR_Bsend_isend P64 ctxNone bbEmptyLists 10 true).bb.avail.map proj
        = bbEmptyLists.avail.map proj
    ∧ (MPIR_Bsend_isend P64 ctxNone bbEmptyLists 10 true).bb.active = bbEmptyLists.active := by
  exact C2_error_preserves_lists P64 ctxNone bbEmptyLists 10 true .noBufferSpace
    (fun b hb => nomatch hb) rfl

/-! ## C3 -/

/-- C3: the driver makes at most two find attempts in any call; if the first
find (after the entry reclaim) succeeds the second pass is not performed
(trace is one reclaim then one find); and when neither pass finds a fit the
call makes exactly two find attempts with exactly one progress-and-reclaim
step between them and fails with `NO_BUFFER_SPACE` — it never loops further
or blocks waiting for space. -/
theorem C3_two_pass_structure (P : Plat) (ctx : Ctx) (bb : BsendBuffer)
    (packsize : Nat) (wantReq : Bool) :
    ((MPIR_Bsend_isend P ctx bb packsize wantReq).trace.count Ev.find ≤ 2)
    ∧ (∀ p, MPIR_Bsend_find_buffer (MPIR_Bsend_check_active P ctx.complete bb).avail packsize
          = some p →
        (MPIR_Bsend_isend P ctx bb packsize wantReq).trace = [Ev.reclaim, Ev.find])
    ∧ (MPIR_Bsend_find_buffer (MPIR_Bsend_check_active P ctx.complete bb).avail packsize = none →
       MPIR_Bsend_find_buffer (MPIR_Bsend_check_active P ctx.complete
           (MPIR_Bsend_check_active P ctx.complete bb)).avail packsize = none →
        (MPIR_Bsend_isend P ctx bb packsize wantReq).err = some Err.noBufferSpace
        ∧ (MPIR_Bsend_isend P ctx bb packsize wantReq).trace
            = [Ev.reclaim, Ev.find, Ev.reclaim, Ev.find]) := by
  refine ⟨?_, ?_, ?_⟩
  · cases hf1 : MPIR_Bsend_find_buffer (MPIR_Bsend_check_active P ctx.complete bb).avail
        packsize with
    | some p =>
        have hred : MPIR_Bsend_isend P ctx bb packsize wantReq
            = isendFound P ctx (MPIR_Bsend_check_active P ctx.complete bb) p packsize wantReq
                [.reclaim, .find] := by
          simp only [MPIR_Bsend_isend, hf1]
        rw [hred, isendFound_trace]
        decide
    | none =>
        cases hf2 : MPIR_Bsend_find_buffer (MPIR_Bsend_check_active P ctx.complete
            (MPIR_Bsend_check_active P ctx.complete bb)).avail packsize with
        | some p =>
            have hred : MPIR_Bsend_isend P ctx bb packsize wantReq
                = isendFound P ctx (MPIR_Bsend_check_active P ctx.complete
                    (MPIR_Bsend_check_active P ctx.complete bb)) p packsize wantReq
                    [.reclaim, .find, .reclaim, .find] := by
              simp only [MPIR_Bsend_isend, hf1, hf2]
            rw [hred, isendFound_trace]
            decide
        | none =>
            have hred : (MPIR_Bsend_isend P ctx bb packsize wantReq).trace
                = [.reclaim, .find, .reclaim, .find] := by
              simp only [MPIR_Bsend_isend, hf1, hf2]
            rw [hred]
            decide
  · intro p hf1
    have hred : MPIR_Bsend_isend P ctx bb packsize wantReq
        = isendFound P ctx (MPIR_Bsend_check_active P ctx.complete bb) p packsize wantReq
            [.reclaim, .find] := by
      simp only [MPIR_Bsend_isend, hf1]
    rw [hred, isendFound_trace]
  · intro hf1 hf2
    have hred : MPIR_Bsend_isend P ctx bb packsize wantReq
        = { err := some .noBufferSpace
          , bb := MPIR_Bsend_check_active P ctx.complete
              (MPIR_Bsend_check_active P ctx.complete bb)
          , outreq := none
          , trace := [.reclaim, .find, .reclaim, .find] } := by
      simp only [MPIR_Bsend_isend, hf1, hf2]
    rw [hred]
    exact ⟨rfl, rfl⟩

/-- Witness for C3 at a concrete input. -/
theorem C3_two_pass_structure_witness :
    (MPIR_Bsend_isend P64 ctxNone bbEmptyLists 10 true).err = some Err.noBufferSpace
    ∧ (MPIR_Bsend_isend P64 ctxNone bbEmptyLists 10 true).trace
        = [Ev.reclaim, Ev.find, Ev.reclaim, Ev.find] := by
  exact (C3_two_pass_structure P64 ctxNone bbEmptyLists 10 true).2.2 rfl rfl

/-- Splicing after the (unique) node with address `a` when `a` heads the tail
of the decomposition. -/
theorem insertAfterAddr_of_first (a : Nat) (n p : Block) (l1 l2 : List Block)
    (hne : ∀ q ∈ l1, q.addr ≠ a) (hp : p.addr = a) :
    insertAfterAddr a n (l1 ++ p :: l2) = l1 ++ p :: n :: l2 := by
  induction l1 with
  | nil => simp [insertAfterAddr, hp]
  | cons x t ih =>
      have hx : x.addr ≠ a := hne x (by simp)
      have ht := ih (fun q hq => hne q (by simp [hq]))
      simp only [List.cons_append, insertAfterAddr, if_neg hx]
      exact congrArg (fun l => x :: l) ht

/-- Unlinking distributes over a prefix free of the target address. -/
theorem removeAddr_append (a : Nat) (l1 l2 : List Block)
    (h1 : ∀ q ∈ l1, q.addr ≠ a) :
    removeAddr a (l1 ++ l2) = l1 ++ removeAddr a l2 := by
  unfold removeAddr
  rw [List.filter_append]
  congr 1
  exact List.filter_eq_self.mpr (fun q hq => by simp [h1 q hq])

/-- Unlinking a list without the target address is the identity. -/
theorem removeAddr_of_not_mem (a : Nat) (l : List Block)
    (h : ∀ q ∈ l, q.addr ≠ a) :
    removeAddr a l = l := by
  unfold removeAddr
  exact List.filter_eq_self.mpr (fun q hq => by simp [h q hq])

/-- Unlinking drops a head node carrying the target address. -/
theorem removeAddr_cons_self (a : Nat) (p : Block) (l : List Block) (hp : p.addr = a) :
    removeAddr a (p :: l) = removeAddr a l := by
  unfold removeAddr
  rw [List.filter_cons]
  simp [hp]

/-- Unlinking keeps a head node with a different address. -/
theorem removeAddr_cons_ne (a : Nat) (p : Block) (l : List Block) (hp : p.addr ≠ a) :
    removeAddr a (p :: l) = p :: removeAddr a l := by
  unfold removeAddr
  rw [List.filter_cons]
  simp [hp]

/-! ## C4 -/

/-- C4: taking a found block `p` for an `n`-byte request rounds `n` up to
`n_aligned`, a multiple of `MAX_ALIGNMENT`.  When
`n_aligned + header_size + MIN_BLOCK_PAYLOAD ≤ p.payload_capacity` the block
is split: a new free block `q` appears exactly in `p`'s place on the free
list at address `p + header_size + n_aligned` with
`total_span = p.total_span − (header_size + n_aligned)` and recomputed
payload capacity never below `MIN_BLOCK_PAYLOAD`; `p` is shrunk to
`total_span = header_size + n_aligned`.  Otherwise `p` is consumed whole with
its span unchanged.  In both cases `p` leaves the free list and becomes the
head of the active list. -/
theorem C4_take_buffer_split (P : Plat) (bb : BsendBuffer) (p : Block) (n : Nat)
    (l1 l2 : List Block) (hav : bb.avail = l1 ++ p :: l2)
    (hnd : ((l1 ++ p :: l2).map (fun b => b.addr)).Nodup)
    (hsz : sizeInv P p) (hhdr : 0 < P.hdr) :
    (alignUp P n + P.hdr + MIN_BUFFER_BLOCK ≤ p.size →
      ∃ q p2,
        (MPIR_Bsend_take_buffer P bb p n).avail = l1 ++ q :: l2
        ∧ q.addr = p.addr + P.hdr + alignUp P n
        ∧ q.total_size = p.total_size - (P.hdr + alignUp P n)
        ∧ q.size = q.total_size - P.hdr
        ∧ MIN_BUFFER_BLOCK ≤ q.size
        ∧ (MPIR_Bsend_take_buffer P bb p n).active = p2 :: bb.active
        ∧ p2.addr = p.addr
        ∧ p2.total_size = P.hdr + alignUp P n
        ∧ p2.size = p2.total_size - P.hdr
        ∧ p2.request = p.request)
    ∧ (¬ (alignUp P n + P.hdr + MIN_BUFFER_BLOCK ≤ p.size) →
        (MPIR_Bsend_take_buffer P bb p n).avail = l1 ++ l2
        ∧ (MPIR_Bsend_take_buffer P bb p n).active = p :: bb.active) := by
  have hnd' := hnd
  simp only [List.map_append, List.map_cons, List.nodup_append, List.nodup_cons] at hnd'
  obtain ⟨hn1, ⟨hpn2, hn2⟩, hdisj⟩ := hnd'
  have hl1 : ∀ x ∈ l1, x.addr ≠ p.addr := by
    intro x hx heq
    have hmem : x.addr ∈ l1.map (fun b => b.addr) := List.mem_map_of_mem _ hx
    have := hdisj hmem
    simp [heq] at this
  have hl2 : ∀ x ∈ l2, x.addr ≠ p.addr := by
    intro x hx heq
    exact hpn2 (heq ▸ List.mem_map_of_mem (fun b => b.addr) hx)
  constructor
  · intro hcond
    have hred : MPIR_Bsend_take_buffer P bb p n =
        { bb with
          avail := removeAddr p.addr (insertAfterAddr p.addr
            { addr := p.addr + P.hdr + alignUp P n
            , total_size := p.total_size - alignUp P n - P.hdr
            , size := p.total_size - alignUp P n - P.hdr - P.hdr
            , msgbuf := p.addr + P.hdr + alignUp P n + P.hdr
            , count := 0, request := none } bb.avail)
        , active := { p with total_size := p.addr + P.hdr + alignUp P n - p.addr
                           , size := p.addr + P.hdr + alignUp P n - p.addr - P.hdr }
            :: bb.active } := by
      unfold MPIR_Bsend_take_buffer
      rw [if_pos hcond]
    refine ⟨{ addr := p.addr + P.hdr + alignUp P n
            , total_size := p.total_size - alignUp P n - P.hdr
            , size := p.total_size - alignUp P n - P.hdr - P.hdr
            , msgbuf := p.addr + P.hdr + alignUp P n + P.hdr
            , count := 0, request := none },
           { p with total_size := p.addr + P.hdr + alignUp P n - p.addr
                  , size := p.addr + P.hdr + alignUp P n - p.addr - P.hdr },
           ?_, rfl, ?_, rfl, ?_, ?_, rfl, ?_, rfl, rfl⟩
    · rw [hred, hav,
        insertAfterAddr_of_first p.addr _ p l1 l2 hl1 rfl,
        removeAddr_append p.addr l1 _ hl1,
        removeAddr_cons_self p.addr p _ rfl,
        removeAddr_cons_ne p.addr _ _ (by simp; omega),
        removeAddr_of_not_mem p.addr l2 hl2]
    · simp only
      omega
    · unfold sizeInv at hsz
      unfold MIN_BUFFER_BLOCK at hcond ⊢
      simp only
      omega
    · rw [hred]
    · simp only
      omega
  · intro hcond
    have hred : MPIR_Bsend_take_buffer P bb p n =
        { bb with avail := removeAddr p.addr bb.avail, active := p :: bb.active } := by
      unfold MPIR_Bsend_take_buffer
      rw [if_neg hcond]
    rw [hred, hav, removeAddr_append p.addr l1 _ hl1,
      removeAddr_cons_self p.addr p _ rfl,
      removeAddr_of_not_mem p.addr l2 hl2]
    exact ⟨rfl, rfl⟩

/-- The single free block of a fresh 4096-byte arena at address 0. -/
def pW4 : Block :=
  { addr := 0, total_size := 4096, size := 4032, msgbuf := 64, count := 0, request := none }

/-- A fresh 4096-byte arena at address 0 on the LP64 platform. -/
def bbW4 : BsendBuffer :=
  { origbuffer := some 0, origbuffer_size := 4096, buffer := some 0, buffer_size := 4096
  , avail := [pW4], active := [] }

/-- Witness for C4 at a concrete input (whole-block consumption case). -/
theorem C4_take_buffer_split_witness :
    (MPIR_Bsend_take_buffer P64 bbW4 pW4 4000).avail = [] ++ []
    ∧ (MPIR_Bsend_take_buffer P64 bbW4 pW4 4000).active = pW4 :: bbW4.active := by
  exact (C4_take_buffer_split P64 bbW4 pW4 4000 [] [] rfl (by decide)
    (by unfold sizeInv; decide) (by decide)).2 (by decide)

/-- `sizeInvAll` is closed under append. -/
theorem sizeInvAll_append (P : Plat) (l1 l2 : List Block)
    (h1 : sizeInvAll P l1) (h2 : sizeInvAll P l2) : sizeInvAll P (l1 ++ l2) :=
  fun q hq => (List.mem_append.mp hq).elim (h1 q) (h2 q)

/-- `sizeInvAll` is closed under cons. -/
theorem sizeInvAll_cons (P : Plat) (b : Block) (l : List Block)
    (hb : sizeInv P b) (hl : sizeInvAll P l) : sizeInvAll P (b :: l) := by
  intro q hq
  rcases List.mem_cons.mp hq with h | h
  · exact h ▸ hb
  · exact hl q h

/-- Members of a spliced list are old members or the spliced node. -/
theorem mem_insertAfterAddr (a : Nat) (n q : Block) (l : List Block)
    (hq : q ∈ insertAfterAddr a n l) : q ∈ l ∨ q = n := by
  induction l with
  | nil => simp [insertAfterAddr] at hq
  | cons x t ih =>
      simp only [insertAfterAddr] at hq
      split at hq
      · rcases List.mem_cons.mp hq with h | h
        · exact Or.inl (by simp [h])
        · rcases List.mem_cons.mp h with h2 | h2
          · exact Or.inr h2
          · exact Or.inl (by simp [h2])
      · rcases List.mem_cons.mp hq with h | h
        · exact Or.inl (by simp [h])
        · rcases ih h with h2 | h2
          · exact Or.inl (by simp [h2])
          · exact Or.inr h2

/-- Members of an unlinked list are members of the original. -/
theorem mem_of_mem_removeAddr (a : Nat) (q : Block) (l : List Block)
    (hq : q ∈ removeAddr a l) : q ∈ l :=
  List.mem_of_mem_filter hq

/-- The right-neighbor half of `MPIR_Bsend_free_segment`'s merge: merge `p`
into the first block after it when byte-adjacent.  (Named decomposition of the
`pr` computation inside `MPIR_Bsend_free_merge`.) -/
def mergeRightPair (P : Plat) (p : Block) (after : List Block) : Block × List Block :=
  match after with
  | [] => (p, [])
  | r :: rest =>
      if p.addr + p.total_size = r.addr then
        ({ p with total_size := p.total_size + r.total_size
                , size := p.total_size + r.total_size - P.hdr }, rest)
      else (p, r :: rest)

/-- The left-neighbor half of `MPIR_Bsend_free_segment`'s merge: merge the
(possibly right-merged) block `p2` into the last block before it when
byte-adjacent, else splice it in between. -/
def attachLeft (P : Plat) (before : List Block) (p2 : Block) (after2 : List Block) :
    List Block :=
  match before.getLast? with
  | none => p2 :: after2
  | some L =>
      if L.addr + L.total_size = p2.addr then
        before.dropLast ++
          ({ L with total_size := L.total_size + p2.total_size
                  , size := L.total_size + p2.total_size - P.hdr } :: after2)
      else before ++ (p2 :: after2)

/-- `MPIR_Bsend_free_merge` decomposed into its two sequential merge steps. -/
theorem free_merge_eq (P : Plat) (p : Block) (avail : List Block) :
    MPIR_Bsend_free_merge P p avail =
      attachLeft P (avail.takeWhile (fun q => q.addr ≤ p.addr))
        (mergeRightPair P p (avail.dropWhile (fun q => q.addr ≤ p.addr))).1
        (mergeRightPair P p (avail.dropWhile (fun q => q.addr ≤ p.addr))).2 := by
  unfold MPIR_Bsend_free_merge attachLeft mergeRightPair
  rfl

/-- The block produced by the right merge keeps the capacity/span agreement. -/
theorem mergeRightPair_fst_sizeInv (P : Plat) (p : Block) (after : List Block)
    (hp : sizeInv P p) : sizeInv P (mergeRightPair P p after).1 := by
  unfold mergeRightPair
  split
  · exact hp
  · split
    · exact rfl
    · exact hp

/-- The tail left by the right merge is a subset of the input. -/
theorem mergeRightPair_snd_subset (P : Plat) (p : Block) (after : List Block) :
    ∀ q ∈ (mergeRightPair P p after).2, q ∈ after := by
  unfold mergeRightPair
  split
  · exact fun q hq => nomatch hq
  · split
    · next r rest _ _ => exact fun q hq => by simp [hq]
    · exact fun q hq => hq

/-- The left merge preserves the capacity/span agreement of all blocks. -/
theorem attachLeft_sizeInvAll (P : Plat) (before : List Block) (p2 : Block)
    (after2 : List Block) (hb : sizeInvAll P before) (hp : sizeInv P p2)
    (ha : sizeInvAll P after2) : sizeInvAll P (attachLeft P before p2 after2) := by
  unfold attachLeft
  split
  · exact sizeInvAll_cons P _ _ hp ha
  · split
    · refine sizeInvAll_append P _ _ ?_ (sizeInvAll_cons P _ _ rfl ha)
      exact fun q hq => hb q ((List.dropLast_sublist _).subset hq)
    · exact sizeInvAll_append P _ _ hb (sizeInvAll_cons P _ _ hp ha)

/-- `MPIR_Bsend_free_merge` preserves the capacity/span agreement: both merge
sites recompute `size` as `total_size` minus the true header size. -/
theorem free_merge_sizeInvAll (P : Plat) (p : Block) (avail : List Block)
    (hall : sizeInvAll P avail) (hp : sizeInv P p) :
    sizeInvAll P (MPIR_Bsend_free_merge P p avail) := by
  rw [free_merge_eq]
  refine attachLeft_sizeInvAll P _ _ _
    (fun q hq => hall q ((List.takeWhile_sublist _).subset hq))
    (mergeRightPair_fst_sizeInv P p _ hp)
    (fun q hq => hall q ((List.dropWhile_sublist _).subset
      (mergeRightPair_snd_subset P p _ q hq)))

/-! ## C7 -/

/-- C7 as frozen is false of the code: the block created by attach inherits
the caller's byte count as its `total_size`, which need not be a multiple of
`MAX_ALIGNMENT`.  Attaching an aligned region of 104 bytes creates a block of
span 104, and 16 does not divide 104. -/
theorem C7_counterexample :
    (MPIR_Bsend_attach P64 none 0 104).toOption.map
        (fun bb => bb.avail.map (fun b => b.total_size)) = some [104]
    ∧ ¬ (P64.ma ∣ 104) := by
  exact ⟨rfl, by decide⟩

/-- C7 (amended): `payload_capacity = total_span − header_size` does hold for
every block created or updated by the three mutating sites — the attach
block, both halves of a take-buffer split, and every merge in the free path —
and the block taken by a split has `total_span = header_size + n_aligned`,
which is a multiple of `MAX_ALIGNMENT` whenever the header size is.  The
`total_span mod MAX_ALIGNMENT = 0` half of the claim fails in general for the
attach-created block (see the counterexample). -/
theorem C7_size_invariant (P : Plat) :
    (∀ slot buf n bb, MPIR_Bsend_attach P slot buf n = .ok bb →
        sizeInvAll P bb.avail ∧ sizeInvAll P bb.active)
    ∧ (∀ (bb : BsendBuffer) (p : Block) (n : Nat),
        sizeInvAll P bb.avail → sizeInvAll P bb.active → sizeInv P p →
        sizeInvAll P (MPIR_Bsend_take_buffer P bb p n).avail
        ∧ sizeInvAll P (MPIR_Bsend_take_buffer P bb p n).active
        ∧ (alignUp P n + P.hdr + MIN_BUFFER_BLOCK ≤ p.size →
            ∃ p2 : Block, (MPIR_Bsend_take_buffer P bb p n).active = p2 :: bb.active
              ∧ p2.total_size = P.hdr + alignUp P n
              ∧ (P.ma ∣ P.hdr → P.ma ∣ p2.total_size)))
    ∧ (∀ (p : Block) (avail : List Block), sizeInvAll P avail → sizeInv P p →
        sizeInvAll P (MPIR_Bsend_free_merge P p avail)) := by
  refine ⟨?_, ?_, fun p avail h1 h2 => free_merge_sizeInvAll P p avail h1 h2⟩
  · intro slot buf n bb h
    simp only [MPIR_Bsend_attach] at h
    split at h
    · exact absurd h (by simp)
    · split at h
      · exact absurd h (by simp)
      · simp only [Except.ok.injEq] at h
        subst h
        refine ⟨?_, fun q hq => nomatch hq⟩
        intro q hq
        rcases List.mem_cons.mp hq with h | h
        · exact h ▸ rfl
        · exact absurd h (List.not_mem_nil q)
  · intro bb p n hav hact hp
    by_cases hcond : alignUp P n + P.hdr + MIN_BUFFER_BLOCK ≤ p.size
    · have hred : MPIR_Bsend_take_buffer P bb p n =
          { bb with
            avail := removeAddr p.addr (insertAfterAddr p.addr
              { addr := p.addr + P.hdr + alignUp P n
              , total_size := p.total_size - alignUp P n - P.hdr
              , size := p.total_size - alignUp P n - P.hdr - P.hdr
              , msgbuf := p.addr + P.hdr + alignUp P n + P.hdr
              , count := 0, request := none } bb.avail)
          , active := { p with total_size := p.addr + P.hdr + alignUp P n - p.addr
                             , size := p.addr + P.hdr + alignUp P n - p.addr - P.hdr }
              :: bb.active } := by
        unfold MPIR_Bsend_take_buffer
        rw [if_pos hcond]
      rw [hred]
      refine ⟨?_, ?_, ?_⟩
      · intro q hq
        rcases mem_insertAfterAddr p.addr _ q bb.avail
            (mem_of_mem_removeAddr p.addr q _ hq) with h | h
        · exact hav q h
        · exact h ▸ rfl
      · exact sizeInvAll_cons P _ _ rfl hact
      · intro _
        refine ⟨_, rfl, ?_, ?_⟩
        · simp only
          omega
        · intro hdvd
          have hd := ma_dvd_alignUp P n
          have h2 : P.ma ∣ P.hdr + alignUp P n := Nat.dvd_add hdvd hd
          have h3 : p.addr + P.hdr + alignUp P n - p.addr = P.hdr + alignUp P n := by omega
          simp only
          rw [h3]
          exact h2
    · have hred : MPIR_Bsend_take_buffer P bb p n =
          { bb with avail := removeAddr p.addr bb.avail, active := p :: bb.active } := by
        unfold MPIR_Bsend_take_buffer
        rw [if_neg hcond]
      rw [hred]
      exact ⟨fun q hq => hav q (mem_of_mem_removeAddr p.addr q _ hq),
        sizeInvAll_cons P _ _ hp hact,
        fun hc => absurd hc hcond⟩

/-- Witness for C7 at a concrete input. -/
theorem C7_size_invariant_witness :
    sizeInvAll P64 bbAtt.avail ∧ sizeInvAll P64 bbAtt.active := by
  exact (C7_size_invariant P64).1 none 4 1000 bbAtt (by rfl)

/-- Right free neighbor of `p`: the first free block at a higher address
(the `avail` cursor where the walk in `MPIR_Bsend_free_segment` stops). -/
def rightNbr (p : Block) (avail : List Block) : Option Block :=
  (avail.dropWhile (fun q => q.addr ≤ p.addr)).head?

/-- Left free neighbor of `p`: the last free block at a lower address
(`avail_prev` in `MPIR_Bsend_free_segment`). -/
def leftNbr (p : Block) (avail : List Block) : Option Block :=
  (avail.takeWhile (fun q => q.addr ≤ p.addr)).getLast?

/-- `p` is byte-adjacent to its right free neighbor. -/
def RightAdj (p : Block) (avail : List Block) : Prop :=
  ∃ r, rightNbr p avail = some r ∧ p.addr + p.total_size = r.addr

/-- `p` is byte-adjacent to its left free neighbor. -/
def LeftAdj (p : Block) (avail : List Block) : Prop :=
  ∃ L, leftNbr p avail = some L ∧ L.addr + L.total_size = p.addr

/-- Equation lemma: right merge fires on a byte-adjacent right neighbor. -/
theorem mergeRightPair_adj (P : Plat) (p r : Block) (rest : List Block)
    (hadj : p.addr + p.total_size = r.addr) :
    mergeRightPair P p (r :: rest) =
      ({ p with total_size := p.total_size + r.total_size
              , size := p.total_size + r.total_size - P.hdr }, rest) := by
  unfold mergeRightPair
  dsimp only
  rw [if_pos hadj]

/-- Equation lemma: no right merge without a byte-adjacent right neighbor. -/
theorem mergeRightPair_nonadj (P : Plat) (p : Block) (after : List Block)
    (h : ∀ r ∈ after.head?, p.addr + p.total_size ≠ r.addr) :
    mergeRightPair P p after = (p, after) := by
  cases after with
  | nil => rfl
  | cons r rest =>
      unfold mergeRightPair
      dsimp only
      rw [if_neg (h r rfl)]

/-- The right merge never moves the block's start address. -/
theorem mergeRightPair_fst_addr (P : Plat) (p : Block) (after : List Block) :
    (mergeRightPair P p after).1.addr = p.addr := by
  unfold mergeRightPair
  split
  · rfl
  · split
    · rfl
    · rfl

/-- The right merge conserves total spans. -/
theorem mergeRightPair_sum (P : Plat) (p : Block) (after : List Block) :
    (mergeRightPair P p after).1.total_size
      + ((mergeRightPair P p after).2.map (fun b => b.total_size)).sum
      = p.total_size + (after.map (fun b => b.total_size)).sum := by
  unfold mergeRightPair
  split
  · simp
  · split
    · simp only [List.map_cons, List.sum_cons]
      omega
    · simp only [List.map_cons, List.sum_cons]

/-- Equation lemma: left merge fires on a byte-adjacent left neighbor. -/
theorem attachLeft_adj (P : Plat) (before : List Block) (p2 L : Block)
    (after2 : List Block) (hlast : before.getLast? = some L)
    (hadj : L.addr + L.total_size = p2.addr) :
    attachLeft P before p2 after2 =
      before.dropLast ++
        ({ L with total_size := L.total_size + p2.total_size
                , size := L.total_size + p2.total_size - P.hdr } :: after2) := by
  unfold attachLeft
  rw [hlast]
  dsimp only
  rw [if_pos hadj]

/-- Equation lemma: without a byte-adjacent left neighbor, the block is
spliced in between. -/
theorem attachLeft_nonadj (P : Plat) (before : List Block) (p2 : Block)
    (after2 : List Block)
    (h : ∀ L ∈ before.getLast?, L.addr + L.total_size ≠ p2.addr) :
    attachLeft P before p2 after2 = before ++ (p2 :: after2) := by
  unfold attachLeft
  cases hlast : before.getLast? with
  | none =>
      rw [List.getLast?_eq_none_iff] at hlast
      rw [hlast]
      rfl
  | some L =>
      dsimp only
      rw [if_neg (h L hlast)]

/-- Length of the left-merge result when the merge fires. -/
theorem attachLeft_length_adj (P : Plat) (before : List Block) (p2 L : Block)
    (after2 : List Block) (hlast : before.getLast? = some L)
    (hadj : L.addr + L.total_size = p2.addr) :
    (attachLeft P before p2 after2).length = before.length + after2.length := by
  obtain ⟨ys, rfl⟩ := List.getLast?_eq_some_iff.mp hlast
  rw [attachLeft_adj P _ p2 L after2 hlast hadj, List.dropLast_concat]
  simp
  omega

/-- Length of the left-merge result when the merge does not fire. -/
theorem attachLeft_length_nonadj (P : Plat) (before : List Block) (p2 : Block)
    (after2 : List Block)
    (h : ∀ L ∈ before.getLast?, L.addr + L.total_size ≠ p2.addr) :
    (attachLeft P before p2 after2).length = before.length + 1 + after2.length := by
  rw [attachLeft_nonadj P before p2 after2 h]
  simp
  omega

/-- The left merge conserves total spans. -/
theorem attachLeft_sum (P : Plat) (before : List Block) (p2 : Block)
    (after2 : List Block) :
    ((attachLeft P before p2 after2).map (fun b => b.total_size)).sum
      = (before.map (fun b => b.total_size)).sum + p2.total_size
        + ((after2.map (fun b => b.total_size)).sum) := by
  cases hlast : before.getLast? with
  | none =>
      have hb : before = [] := List.getLast?_eq_none_iff.mp hlast
      rw [attachLeft_nonadj P before p2 after2
        (fun L hL => by rw [hlast] at hL; exact nomatch hL), hb]
      simp
  | some L =>
      by_cases hadj : L.addr + L.total_size = p2.addr
      · obtain ⟨ys, hys⟩ := List.getLast?_eq_some_iff.mp hlast
        rw [attachLeft_adj P before p2 L after2 hlast hadj, hys, List.dropLast_concat]
        simp [List.sum_append]
        omega
      · rw [attachLeft_nonadj P before p2 after2 (fun L2 hL2 => by
          rw [hlast, Option.mem_def, Option.some.injEq] at hL2
          subst hL2
          exact hadj)]
        simp [List.sum_append]
        omega

/-- Chain preservation for the left merge, given the separation bounds the
walk in `MPIR_Bsend_free_segment` guarantees. -/
theorem attachLeft_chain (P : Plat) (before : List Block) (p2 : Block)
    (after2 : List Block)
    (hchB : List.Chain' sep before) (hchA2 : List.Chain' sep after2)
    (hBle : ∀ q ∈ before, q.addr + q.total_size ≤ p2.addr)
    (hp2a : ∀ y ∈ after2.head?, sep p2 y) :
    List.Chain' sep (attachLeft P before p2 after2) := by
  cases hlast : before.getLast? with
  | none =>
      have hb : before = [] := List.getLast?_eq_none_iff.mp hlast
      rw [attachLeft_nonadj P before p2 after2
        (fun L hL => by rw [hlast] at hL; exact nomatch hL), hb, List.nil_append]
      exact List.chain'_cons'.mpr ⟨hp2a, hchA2⟩
  | some L =>
      by_cases hadj : L.addr + L.total_size = p2.addr
      · obtain ⟨ys, hys⟩ := List.getLast?_eq_some_iff.mp hlast
        rw [attachLeft_adj P before p2 L after2 hlast hadj, hys, List.dropLast_concat]
        have hchB' : List.Chain' sep (ys ++ [L]) := hys ▸ hchB
        obtain ⟨hchY, _, hlinkY⟩ := List.chain'_append.mp hchB'
        refine List.Chain'.append hchY ?_ ?_
        · refine List.chain'_cons'.mpr ⟨?_, hchA2⟩
          intro y hy
          have hsepy := hp2a y hy
          unfold sep at hsepy ⊢
          simp only
          omega
        · intro x hx y hy
          simp only [List.head?_cons, Option.mem_def, Option.some.injEq] at hy
          have hxL := hlinkY x hx L (by simp)
          unfold sep at hxL ⊢
          subst hy
          simp only
          omega
      · rw [attachLeft_nonadj P before p2 after2 (fun L2 hL2 => by
          rw [hlast, Option.mem_def, Option.some.injEq] at hL2
          subst hL2
          exact hadj)]
        refine List.Chain'.append hchB (List.chain'_cons'.mpr ⟨hp2a, hchA2⟩) ?_
        intro x hx y hy
        simp only [List.head?_cons, Option.mem_def, Option.some.injEq] at hy
        rw [hlast, Option.mem_def, Option.some.injEq] at hx
        subst hx
        subst hy
        have hle := hBle L (List.mem_of_getLast?_eq_some hlast)
        unfold sep
        omega

/-- The head of the dropped suffix fails the predicate. -/
theorem dropWhile_head?_false (f : Block → Bool) (l : List Block) (r : Block)
    (hr : (l.dropWhile f).head? = some r) : f r = false := by
  have hnot := List.head?_dropWhile_not f l
  rw [hr] at hnot
  exact hnot

/-- Members of the kept prefix satisfy the walk's bound. -/
theorem takeWhile_mem_le (p : Block) (l : List Block) (q : Block)
    (hq : q ∈ l.takeWhile (fun b => b.addr ≤ p.addr)) : q.addr ≤ p.addr := by
  induction l with
  | nil => exact absurd hq (by simp)
  | cons x t ih =>
      rw [List.takeWhile_cons] at hq
      by_cases hx : x.addr ≤ p.addr
      · simp only [hx, decide_eq_true hx, if_true] at hq
        rcases List.mem_cons.mp hq with h | h
        · subst h
          exact hx
        · exact ih h
      · simp [hx] at hq

/-! ## C5 -/

/-- C5: releasing a block `p` (disjoint from all free blocks, positive spans)
into a free list satisfying the address-order / no-adjacent-frees invariant
yields a free list satisfying the invariant again, with all payload
capacities equal to span minus header size; spans are conserved; and the
block count drops by one per adjacency — `p` merges with the right neighbor
exactly when `p + p.total_span` is its address, merges with the left neighbor
exactly when `left + left.total_span = p`, and is spliced in address order
otherwise. -/
theorem C5_free_merge_invariants (P : Plat) (p : Block) (avail : List Block)
    (hch : FreeChain avail) (hdisj : DisjointFrom p avail)
    (hpos : 0 < p.total_size) (hposl : PosSpans avail)
    (hsz : sizeInvAll P avail) (hszp : sizeInv P p) :
    FreeChain (MPIR_Bsend_free_merge P p avail)
    ∧ sizeInvAll P (MPIR_Bsend_free_merge P p avail)
    ∧ ((MPIR_Bsend_free_merge P p avail).map (fun b => b.total_size)).sum
        = (avail.map (fun b => b.total_size)).sum + p.total_size
    ∧ (RightAdj p avail → LeftAdj p avail →
        (MPIR_Bsend_free_merge P p avail).length = avail.length - 1)
    ∧ (RightAdj p avail → ¬ LeftAdj p avail →
        (MPIR_Bsend_free_merge P p avail).length = avail.length)
    ∧ (¬ RightAdj p avail → LeftAdj p avail →
        (MPIR_Bsend_free_merge P p avail).length = avail.length)
    ∧ (¬ RightAdj p avail → ¬ LeftAdj p avail →
        (MPIR_Bsend_free_merge P p avail).length = avail.length + 1) := by
  have hsplit : avail.takeWhile (fun q => q.addr ≤ p.addr)
      ++ avail.dropWhile (fun q => q.addr ≤ p.addr) = avail :=
    List.takeWhile_append_dropWhile _ _
  have hch2 : List.Chain' sep (avail.takeWhile (fun q => q.addr ≤ p.addr)
      ++ avail.dropWhile (fun q => q.addr ≤ p.addr)) := by
    rw [hsplit]
    exact hch
  obtain ⟨hchB, hchA, _⟩ := List.chain'_append.mp hch2
  have hBle : ∀ q ∈ avail.takeWhile (fun q => q.addr ≤ p.addr),
      q.addr + q.total_size ≤ p.addr := by
    intro q hq
    have hqle : q.addr ≤ p.addr := takeWhile_mem_le p avail q hq
    have hqav : q ∈ avail := (List.takeWhile_sublist _).subset hq
    have hqpos := hposl q hqav
    rcases hdisj q hqav with h | h
    · exact h
    · omega
  have hAge : ∀ r ∈ (avail.dropWhile (fun q => q.addr ≤ p.addr)).head?,
      p.addr + p.total_size ≤ r.addr := by
    intro r hr
    rw [Option.mem_def] at hr
    have hgt : p.addr < r.addr := by
      have := of_decide_eq_false (dropWhile_head?_false _ avail r hr)
      omega
    have hrav : r ∈ avail :=
      (List.dropWhile_sublist _).subset (List.mem_of_mem_head? (by rw [hr]; rfl))
    have hrpos := hposl r hrav
    rcases hdisj r hrav with h | h
    · omega
    · exact h
  have hlen : avail.length = (avail.takeWhile (fun q => q.addr ≤ p.addr)).length
      + (avail.dropWhile (fun q => q.addr ≤ p.addr)).length := by
    conv_lhs => rw [← hsplit]
    exact List.length_append _ _
  refine ⟨?_, free_merge_sizeInvAll P p avail hsz hszp, ?_, ?_, ?_, ?_, ?_⟩
  · -- the chain invariant
    rw [free_merge_eq]
    cases hA : avail.dropWhile (fun q => q.addr ≤ p.addr) with
    | nil =>
        rw [mergeRightPair_nonadj P p [] (fun r hr => nomatch hr)]
        exact attachLeft_chain P _ p [] hchB List.chain'_nil hBle (fun y hy => nomatch hy)
    | cons r rest =>
        rw [hA] at hchA hAge
        by_cases hradj : p.addr + p.total_size = r.addr
        · rw [mergeRightPair_adj P p r rest hradj]
          refine attachLeft_chain P _ _ rest hchB (List.chain'_cons'.mp hchA).2 hBle ?_
          intro y hy
          have hry := (List.chain'_cons'.mp hchA).1 y hy
          unfold sep at hry ⊢
          simp only
          omega
        · rw [mergeRightPair_nonadj P p (r :: rest) (fun x hx => by
            rw [List.head?_cons, Option.mem_def, Option.some.injEq] at hx
            subst hx
            exact hradj)]
          refine attachLeft_chain P _ p (r :: rest) hchB hchA hBle ?_
          intro y hy
          rw [List.head?_cons, Option.mem_def, Option.some.injEq] at hy
          subst hy
          have hle := hAge r rfl
          unfold sep
          omega
  · -- span conservation
    rw [free_merge_eq, attachLeft_sum]
    have hmr := mergeRightPair_sum P p (avail.dropWhile (fun q => q.addr ≤ p.addr))
    have hs : (avail.map (fun b => b.total_size)).sum
        = ((avail.takeWhile (fun q => q.addr ≤ p.addr)).map (fun b => b.total_size)).sum
          + ((avail.dropWhile (fun q => q.addr ≤ p.addr)).map (fun b => b.total_size)).sum := by
      conv_lhs => rw [← hsplit]
      rw [List.map_append, List.sum_append]
    omega
  · -- merged on both sides
    intro hR hL
    obtain ⟨r, hr, hradj⟩ := hR
    obtain ⟨L, hLeq, hladj⟩ := hL
    unfold rightNbr at hr
    unfold leftNbr at hLeq
    cases hA : avail.dropWhile (fun q => q.addr ≤ p.addr) with
    | nil =>
        rw [hA] at hr
        exact absurd hr (by simp)
    | cons r' rest =>
        rw [hA, List.head?_cons, Option.some.injEq] at hr
        subst hr
        rw [free_merge_eq, hA, mergeRightPair_adj P p r' rest hradj]
        dsimp only
        rw [attachLeft_length_adj P _
          ({ p with total_size := p.total_size + r'.total_size
                  , size := p.total_size + r'.total_size - P.hdr }) L rest hLeq hladj]
        rw [hA] at hlen
        simp only [List.length_cons] at hlen
        omega
  · -- merged right only
    intro hR hnL
    obtain ⟨r, hr, hradj⟩ := hR
    unfold rightNbr at hr
    cases hA : avail.dropWhile (fun q => q.addr ≤ p.addr) with
    | nil =>
        rw [hA] at hr
        exact absurd hr (by simp)
    | cons r' rest =>
        rw [hA, List.head?_cons, Option.some.injEq] at hr
        subst hr
        rw [free_merge_eq, hA, mergeRightPair_adj P p r' rest hradj]
        dsimp only
        rw [attachLeft_length_nonadj P _
          ({ p with total_size := p.total_size + r'.total_size
                  , size := p.total_size + r'.total_size - P.hdr }) rest
          (fun L hL heq => hnL ⟨L, hL, heq⟩)]
        rw [hA] at hlen
        simp only [List.length_cons] at hlen
        omega
  · -- merged left only
    intro hnR hL
    obtain ⟨L, hLeq, hladj⟩ := hL
    unfold leftNbr at hLeq
    rw [free_merge_eq, mergeRightPair_nonadj P p _ (fun r hr heq => hnR ⟨r, hr, heq⟩)]
    dsimp only
    rw [attachLeft_length_adj P _ p L _ hLeq hladj]
    omega
  · -- no merge
    intro hnR hnL
    rw [free_merge_eq, mergeRightPair_nonadj P p _ (fun r hr heq => hnR ⟨r, hr, heq⟩)]
    dsimp only
    rw [attachLeft_length_nonadj P _ p _ (fun L hL heq => hnL ⟨L, hL, heq⟩)]
    omega

/-- Three consecutive 176-byte blocks; the outer two free, the middle one
being released. -/
def blkA : Block :=
  { addr := 0, total_size := 176, size := 112, msgbuf := 64, count := 0, request := none }

/-- See `blkA`. -/
def blkB : Block :=
  { addr := 176, total_size := 176, size := 112, msgbuf := 240, count := 0, request := none }

/-- See `blkA`. -/
def blkC : Block :=
  { addr := 352, total_size := 176, size := 112, msgbuf := 416, count := 0, request := none }

/-- Witness for C5 at a concrete input: releasing the middle block merges
with both neighbours, collapsing three blocks into one. -/
theorem C5_free_merge_invariants_witness :
    (MPIR_Bsend_free_merge P64 blkB [blkA, blkC]).length = [blkA, blkC].length - 1 := by
  refine (C5_free_merge_invariants P64 blkB [blkA, blkC] ?_ ?_ ?_ ?_ ?_ ?_).2.2.2.1 ?_ ?_
  · unfold FreeChain
    rw [List.chain'_pair]
    unfold sep
    decide
  · unfold DisjointFrom
    decide
  · decide
  · unfold PosSpans
    decide
  · unfold sizeInvAll sizeInv
    decide
  · unfold sizeInv
    decide
  · exact ⟨blkC, rfl, by decide⟩
  · exact ⟨blkA, rfl, by decide⟩

end BsendSpec
